import Mathlib

/-!
Verification development for the stamp-remover image-processing core
(`src/unnamed/part_003`: `hexToRgb`, `processSealImage`, `upscaleAndSharpen`,
`traceToSvg`, `generateFallbackSvg`).

Pixels carry four natural-number channels (red, green, blue, alpha); an image
surface is a width, a height and a flat row-major pixel list.  JavaScript
numbers are IEEE-754 binary64 doubles: `floatRound` models their
round-to-nearest-ties-to-even rounding exactly on the normal range (every
value this code produces lies far inside it), and `jsAdd`, `jsSub`, `jsMul`,
`jsDiv` are the correspondingly rounded operations.  `shouldKeepJS` is the
double-faithful classifier; `shouldKeep` is its exact-rational reading, kept
alongside it because the two differ only where a rounded product or quotient
crosses a comparison boundary — which does happen for the red-mode ratio test
(e.g. the double `100 * 1.15` is strictly below 115) but not on any comparison
exercised by the black-mode, recolor or idempotence facts proved below, whose
concrete traces avoid such boundaries.  Assigning a number to
`canvas.width`/`canvas.height` converts it through the WebIDL `unsigned long`
type (truncation toward zero, modulo 2^32), modelled by
`webIDLUnsignedLong`.  The early-return branches taken when a 2D drawing
context is unavailable are modelled by `Option`: `none` stands for an
unavailable context.
-/

/-- One RGBA pixel, as stored in an `ImageData` buffer (4 consecutive bytes). -/
structure Pixel where
  r : ℕ
  g : ℕ
  b : ℕ
  a : ℕ
  deriving DecidableEq

/-- A drawing surface: `width`, `height` and the row-major RGBA buffer. -/
structure ImageSurface where
  width : ℕ
  height : ℕ
  data : List Pixel
  deriving DecidableEq

/-- Result record of `hexToRgb`. -/
structure RGB where
  r : ℕ
  g : ℕ
  b : ℕ
  deriving DecidableEq

/-- The `detectionMode` union type `'red' | 'black' | 'mixed'` of
`ProcessingSettings` (src/App.tsx lines 9–16). -/
inductive DetectionMode where
  | red
  | black
  | mixed
  deriving DecidableEq

/-- The `ProcessingSettings` record (src/App.tsx lines 9–16).  Numeric fields
are JavaScript numbers, embedded as `ℚ`. -/
structure ProcessingSettings where
  redSensitivity : ℚ
  lightnessThreshold : ℚ
  edgeSoftness : ℚ
  chromaThreshold : ℚ
  targetColor : String
  detectionMode : DetectionMode

/-- `c` matches the character class `[a-f\d]` of the `hexToRgb` regex under
the case-insensitive flag `i`. -/
def isHexDigitChar (c : Char) : Bool :=
  (('0' ≤ c) && (c ≤ '9')) || (('a' ≤ c) && (c ≤ 'f')) || (('A' ≤ c) && (c ≤ 'F'))

/-- Numeric value of one hex digit, as `parseInt(·, 16)` assigns it. -/
def hexDigitVal (c : Char) : ℕ :=
  if ('0' ≤ c) && (c ≤ '9') then c.toNat - '0'.toNat
  else if ('a' ≤ c) && (c ≤ 'f') then c.toNat - 'a'.toNat + 10
  else c.toNat - 'A'.toNat + 10

/-- `parseInt` of a two-hex-digit capture group. -/
def hexPair (c₁ c₂ : Char) : ℕ := 16 * hexDigitVal c₁ + hexDigitVal c₂

/-- The characters the three capture groups of the `hexToRgb` regex must
match, after the regex's optional leading `#` is consumed. -/
def hexBody (hex : String) : List Char :=
  match hex.toList with
  | '#' :: rest => rest
  | cs => cs

/-- `hexToRgb` (src/unnamed/part_003 lines 5–12): match the input against
`/^#?([a-f\d]{2})([a-f\d]{2})([a-f\d]{2})$/i` — an *optional* `#` followed by
exactly six hex digits — and parse the three groups; on no match return the
default `{r: 217, g: 0, b: 0}`. -/
def hexToRgb (hex : String) : RGB :=
  match hexBody hex with
  | [c₁, c₂, c₃, c₄, c₅, c₆] =>
    if isHexDigitChar c₁ && isHexDigitChar c₂ && isHexDigitChar c₃ &&
        isHexDigitChar c₄ && isHexDigitChar c₅ && isHexDigitChar c₆ then
      ⟨hexPair c₁ c₂, hexPair c₃ c₄, hexPair c₅ c₆⟩
    else ⟨217, 0, 0⟩
  | _ => ⟨217, 0, 0⟩

/-- The set of strings the `hexToRgb` regex accepts: an optional `#` followed
by exactly six case-insensitive hex digits. -/
def matchesHexFormat (hex : String) : Bool :=
  match hexBody hex with
  | [c₁, c₂, c₃, c₄, c₅, c₆] =>
    isHexDigitChar c₁ && isHexDigitChar c₂ && isHexDigitChar c₃ &&
      isHexDigitChar c₄ && isHexDigitChar c₅ && isHexDigitChar c₆
  | _ => false

/-- Round-to-nearest with ties to even, applied to a significand scaled into
`[2^52, 2^53)`. -/
def roundMantissa (scaled : ℚ) : ℤ :=
  if scaled - ⌊scaled⌋ < 1/2 then ⌊scaled⌋
  else if 1/2 < scaled - ⌊scaled⌋ then ⌊scaled⌋ + 1
  else if ⌊scaled⌋ % 2 = 0 then ⌊scaled⌋ else ⌊scaled⌋ + 1

/-- IEEE-754 binary64 rounding (round to nearest, ties to even) of an exact
rational value: the double a JavaScript arithmetic operation with this exact
result returns.  Normal range only — every quantity in this code is far from
overflow and subnormals. -/
def floatRound (x : ℚ) : ℚ :=
  if x = 0 then 0
  else
    (if x < 0 then -1 else 1) *
      roundMantissa (|x| * (2 : ℚ) ^ (-(Int.log 2 |x| - 52))) *
      (2 : ℚ) ^ (Int.log 2 |x| - 52)

/-- JavaScript `+` on doubles (exact sum, then rounded). -/
def jsAdd (a b : ℚ) : ℚ := floatRound (a + b)

/-- JavaScript `-` on doubles. -/
def jsSub (a b : ℚ) : ℚ := floatRound (a - b)

/-- JavaScript `*` on doubles. -/
def jsMul (a b : ℚ) : ℚ := floatRound (a * b)

/-- JavaScript `/` on doubles. -/
def jsDiv (a b : ℚ) : ℚ := floatRound (a / b)

/-- The WebIDL `unsigned long` conversion applied when a JavaScript number is
assigned to `canvas.width` or `canvas.height` (HTMLCanvasElement attributes):
truncate toward zero, then reduce modulo 2^32.  NaN and the infinities, which
`ℚ` cannot represent, also convert to 0 and are out of scope here. -/
def webIDLUnsignedLong (x : ℚ) : ℕ :=
  ((if x < 0 then ⌈x⌉ else ⌊x⌋) % (2 ^ 32 : ℤ)).toNat

/-- The per-pixel classifier of `processSealImage` (src/unnamed/part_003
lines 33–55) read in exact rational arithmetic.  Only the RGB channels of the
pixel are read.  `shouldKeepJS` below is the double-precision-faithful
version; the two differ only where a rounded red-branch product or quotient
crosses a comparison boundary. -/
def shouldKeep (s : ProcessingSettings) (p : Pixel) : Bool :=
  let r : ℚ := p.r
  let g : ℚ := p.g
  let b : ℚ := p.b
  let lightness : ℚ := (r + g + b) / 3
  if s.detectionMode = DetectionMode.red then
    let rRatio : ℚ := 1 + s.redSensitivity / 100
    let colorDiff : ℚ := r - max g b
    decide (lightness ≤ s.lightnessThreshold ∧ r > g * rRatio ∧ r > b * rRatio ∧
      colorDiff ≥ s.chromaThreshold)
  else
    let saturation : ℚ := max r (max g b) - min r (min g b)
    decide (lightness < 255 - s.lightnessThreshold ∧ saturation < s.redSensitivity / 2)

/-- The per-pixel classifier of `processSealImage` (src/unnamed/part_003
lines 33–55) with every arithmetic operation evaluated in IEEE-754 double
precision, exactly as the JavaScript engine evaluates lines 40, 33, 44, 45,
50, 51 and 52.  Comparisons of doubles are exact, so they remain plain `ℚ`
comparisons of the rounded values. -/
def shouldKeepJS (s : ProcessingSettings) (p : Pixel) : Bool :=
  let r : ℚ := p.r
  let g : ℚ := p.g
  let b : ℚ := p.b
  let lightness : ℚ := jsDiv (jsAdd (jsAdd r g) b) 3
  if s.detectionMode = DetectionMode.red then
    let rRatio : ℚ := jsAdd 1 (jsDiv s.redSensitivity 100)
    let colorDiff : ℚ := jsSub r (max g b)
    decide (lightness ≤ s.lightnessThreshold ∧ r > jsMul g rRatio ∧ r > jsMul b rRatio ∧
      colorDiff ≥ s.chromaThreshold)
  else
    let saturation : ℚ := jsSub (max r (max g b)) (min r (min g b))
    decide (lightness < jsSub 255 s.lightnessThreshold ∧ saturation < jsDiv s.redSensitivity 2)

/-- Body of the per-quad loop of `processSealImage` (src/unnamed/part_003
lines 57–64): a discarded pixel gets alpha 0 with its RGB left in place, a
kept pixel gets alpha 255 and the target RGB. -/
def processPixel (s : ProcessingSettings) (t : RGB) (p : Pixel) : Pixel :=
  if shouldKeep s p then ⟨t.r, t.g, t.b, 255⟩ else ⟨p.r, p.g, p.b, 0⟩

/-- `processSealImage` (src/unnamed/part_003 lines 14–68) on its success path
(drawing context acquired): the canvas takes the source dimensions and every
RGBA quad of the drawn image data is rewritten by the classifier loop. -/
def processSealImage (s : ProcessingSettings) (img : ImageSurface) : ImageSurface :=
  { width := img.width
    height := img.height
    data := img.data.map (processPixel s (hexToRgb s.targetColor)) }

/-- `upscaleAndSharpen` (src/unnamed/part_003 lines 70–88): the destination
dimensions, `dw = sw * scale` and `dh = sh * scale` computed in double
arithmetic (lines 77–78) and then assigned to `targetCanvas.width` and
`targetCanvas.height` (lines 80–81), which are WebIDL `unsigned long`
attributes — the assignment truncates toward zero modulo 2^32; the code
itself applies no rounding. -/
def upscaleDims (sw sh : ℕ) (scale : ℚ) : ℕ × ℕ :=
  (webIDLUnsignedLong (jsMul (sw : ℚ) scale), webIDLUnsignedLong (jsMul (sh : ℚ) scale))

/-- The path command string the fallback tracer appends for one run,
with its trailing space (src/unnamed/part_003 lines 130 and 134). -/
def pathCmd (sX y len : ℕ) : String :=
  "M" ++ toString sX ++ "," ++ toString y ++ "h" ++ toString len ++ "v1h-" ++
    toString len ++ "z "

/-- All-transparent pixel, the value a read outside the buffer behaves as
(`undefined > 128` is false in JavaScript, as is `0 > 128`). -/
def blankPixel : Pixel := ⟨0, 0, 0, 0⟩

/-- The alpha value `data[(y * w + x) * 4 + 3]` read by the fallback tracer. -/
def alphaAt (img : ImageSurface) (x y : ℕ) : ℕ :=
  (img.data.getD (y * img.width + x) blankPixel).a

/-- The alpha values of row `y`, in left-to-right column order. -/
def rowAlphas (img : ImageSurface) (y : ℕ) : List ℕ :=
  (List.range img.width).map (fun x => alphaAt img x y)

/-- The inner column loop of `generateFallbackSvg` (src/unnamed/part_003
lines 124–134) over the remaining alpha values: `x` is the current column and
the `Option ℕ` is the `startX` state (`none` encodes `startX === -1`).  The
final pattern also covers the post-loop flush at line 134 (there `x` has
reached the row width). -/
def scanRowAux (y : ℕ) : List ℕ → ℕ → Option ℕ → String
  | [], _, none => ""
  | [], x, some sX => pathCmd sX y (x - sX)
  | a :: rest, x, none =>
    if 128 < a then scanRowAux y rest (x + 1) (some x)
    else scanRowAux y rest (x + 1) none
  | a :: rest, x, some sX =>
    if 128 < a then scanRowAux y rest (x + 1) (some sX)
    else pathCmd sX y (x - sX) ++ scanRowAux y rest (x + 1) none

/-- Sequential concatenation of the per-row path strings (`paths +=` in the
source accumulates them in this order). -/
def concatStrs : List String → String
  | [] => ""
  | s :: rest => s ++ concatStrs rest

/-- The SVG template literal of src/unnamed/part_003 line 137. -/
def svgWrap (w h : ℕ) (paths : String) : String :=
  "<svg xmlns=\"http://www.w3.org/2000/svg\" viewBox=\"0 0 " ++ toString w ++
    " " ++ toString h ++ "\" width=\"" ++ toString w ++ "\" height=\"" ++
    toString h ++ "\"><path d=\"" ++ paths ++ "\" fill=\"currentColor\"/></svg>"

/-- `generateFallbackSvg` (src/unnamed/part_003 lines 114–137) on its success
path (drawing context acquired): the row-major run-length scan wrapped in the
SVG template. -/
def generateFallbackSvg (img : ImageSurface) : String :=
  svgWrap img.width img.height
    (concatStrs ((List.range img.height).map (fun y => scanRowAux y (rowAlphas img y) 0 none)))

/-- `generateFallbackSvg` including its context check (line 116): with no
drawing context it returns the empty string `''`. -/
def generateFallbackSvgOpt (ctx : Option ImageSurface) : String :=
  match ctx with
  | none => ""
  | some img => generateFallbackSvg img

/-- `traceToSvg` (src/unnamed/part_003 lines 90–112).  The ambient
`ImageTracer` library call is embedded as `Option (Except String String)`:
`none` is `typeof ImageTracer === 'undefined'`, `some (Except.error e)` is a
primary call that throws (caught at line 108), `some (Except.ok out)` a
primary call that returns `out`.  `ctx` is the drawing context the fallback
acquires. -/
def traceToSvg (tracer : Option (Except String String)) (ctx : Option ImageSurface) : String :=
  match tracer with
  | none => generateFallbackSvgOpt ctx
  | some (Except.ok out) => out
  | some (Except.error _) => generateFallbackSvgOpt ctx

/-- The `alpha > 128` opacity test of the fallback tracer, as a Boolean
predicate on alpha values. -/
def opaqueTest : ℕ → Bool := fun v => decide (128 < v)

/-- "pixel `x` of `row` counts as opaque": the `alpha > 128` test of the
fallback tracer, with out-of-range reads counting as transparent. -/
def runBool (row : List ℕ) (x : ℕ) : Bool := opaqueTest (row.getD x 0)

/-- `(row.dropWhile p).length ≤ row.length`, needed for termination of
`maxRunsAux`. -/
theorem length_dropWhile_le {α : Type} (p : α → Bool) :
    ∀ l : List α, (l.dropWhile p).length ≤ l.length
  | [] => le_refl _
  | a :: l => by
    rw [List.dropWhile_cons]
    split
    · exact Nat.le_succ_of_le (length_dropWhile_le p l)
    · exact le_refl _

/-- The maximal contiguous runs of alpha values above 128 in a row suffix,
as `(start column, length)` pairs; `x` is the column of the suffix's first
element.  Stated from the spec sentence "wherever a contiguous run of pixels
with alpha > 128 is found, emit a single rectangular path covering that run
... one path command per run". -/
def maxRunsAux : List ℕ → ℕ → List (ℕ × ℕ)
  | [], _ => []
  | a :: rest, x =>
    if opaqueTest a then
      let len : ℕ := 1 + (rest.takeWhile opaqueTest).length
      (x, len) :: maxRunsAux (rest.dropWhile opaqueTest) (x + len)
    else maxRunsAux rest (x + 1)
termination_by l _ => l.length
decreasing_by
  · simp only [List.length_cons]
    exact Nat.lt_succ_of_le (length_dropWhile_le _ rest)
  · simp only [List.length_cons]
    exact Nat.lt_succ_self _

/-- The maximal runs of a whole row. -/
def maxRuns (row : List ℕ) : List (ℕ × ℕ) := maxRunsAux row 0

/-- `run` is a maximal contiguous opaque run of `row`: nonempty, inside the
row, every covered pixel opaque, and not extendable on either side. -/
def isMaxRun (row : List ℕ) (run : ℕ × ℕ) : Bool :=
  decide (0 < run.2) && decide (run.1 + run.2 ≤ row.length) &&
  ((List.range run.2).all fun i => runBool row (run.1 + i)) &&
  (decide (run.1 = 0) || !(runBool row (run.1 - 1))) &&
  !(runBool row (run.1 + run.2))

/-- Column `x` lies inside one of the runs of `rs`. -/
def coveredBy (rs : List (ℕ × ℕ)) (x : ℕ) : Bool :=
  rs.any fun r => decide (r.1 ≤ x) && decide (x < r.1 + r.2)

/-- The runs appear in left-to-right order without overlap. -/
def runsOrdered : List (ℕ × ℕ) → Bool
  | [] => true
  | [_] => true
  | r₁ :: r₂ :: rs => decide (r₁.1 + r₁.2 ≤ r₂.1) && runsOrdered (r₂ :: rs)

/-- `rs` is exactly the list of maximal opaque runs of `row`: each member is
a maximal run, every opaque pixel is covered, and the members are ordered. -/
def runsSpecOK (row : List ℕ) (rs : List (ℕ × ℕ)) : Bool :=
  rs.all (isMaxRun row) &&
  ((List.range row.length).all fun x => !(runBool row x) || coveredBy rs x) &&
  runsOrdered rs

/-- `s` begins like an SVG document. -/
def svgHead (s : String) : Bool := "<svg".toList.isPrefixOf s.toList

/-- `s` ends like an SVG document. -/
def svgTail (s : String) : Bool := "</svg>".toList.isSuffixOf s.toList

/-- `s` is a well-formed SVG document string in the weak, checkable sense
used here: non-empty, starts with `<svg` and ends with `</svg>`. -/
def isSvgDoc (s : String) : Bool := (!(s == "")) && svgHead s && svgTail s


/-- The concrete red-mode settings of the spec's classifier scenarios:
`lightnessThreshold = 220`, `redSensitivity = 50`, `chromaThreshold = 15`. -/
def redSettings : ProcessingSettings :=
  ⟨50, 220, 0, 15, "#d90000", DetectionMode.red⟩

/-- Red-mode settings with `redSensitivity = 15`: here the double
`100 * (1 + 15/100)` is strictly below 115, so double and exact-rational
evaluation of the ratio test disagree at pixel (115,100,0). -/
def rs15Settings : ProcessingSettings :=
  ⟨15, 220, 0, 15, "#d90000", DetectionMode.red⟩

/-- Black-mode settings with the darkness window fully open
(`lightnessThreshold = 0`). -/
def blackLo : ProcessingSettings := ⟨10, 0, 0, 15, "#d90000", DetectionMode.black⟩

/-- Black-mode settings with the darkness window fully closed
(`lightnessThreshold = 255`). -/
def blackHi : ProcessingSettings := ⟨10, 255, 0, 15, "#d90000", DetectionMode.black⟩

/-- Red-mode settings whose target color (white) is itself rejected by the
red-mode classifier. -/
def whiteTargetSettings : ProcessingSettings :=
  ⟨50, 220, 0, 15, "#ffffff", DetectionMode.red⟩

/-- A 1×1 surface holding one clearly red pixel. -/
def img1 : ImageSurface := ⟨1, 1, [⟨200, 30, 30, 255⟩]⟩

/-- The pixel a kept pixel is rewritten to: target RGB with alpha 255. -/
def targetPixel (s : ProcessingSettings) : Pixel :=
  ⟨(hexToRgb s.targetColor).r, (hexToRgb s.targetColor).g, (hexToRgb s.targetColor).b, 255⟩

/-- The spec's fallback-tracer scenario: a 3×3 surface whose top row is fully
opaque and whose remaining pixels are transparent. -/
def exampleSurface3 : ImageSurface :=
  ⟨3, 3, [⟨0, 0, 0, 255⟩, ⟨0, 0, 0, 255⟩, ⟨0, 0, 0, 255⟩, ⟨0, 0, 0, 0⟩, ⟨0, 0, 0, 0⟩,
    ⟨0, 0, 0, 0⟩, ⟨0, 0, 0, 0⟩, ⟨0, 0, 0, 0⟩, ⟨0, 0, 0, 0⟩]⟩

theorem scan_some_eq (y : ℕ) : ∀ (l : List ℕ) (x sX : ℕ),
    scanRowAux y l x (some sX) =
      pathCmd sX y ((x + (l.takeWhile opaqueTest).length) - sX) ++
        scanRowAux y (l.dropWhile opaqueTest) (x + (l.takeWhile opaqueTest).length) none
  | [], x, sX => by
    simp [scanRowAux, String.append_empty]
  | a :: rest, x, sX => by
    by_cases h : 128 < a
    · have hb : opaqueTest a = true := by simp [opaqueTest, h]
      rw [scanRowAux]
      rw [if_pos h]
      rw [List.takeWhile_cons_of_pos hb, List.dropWhile_cons_of_pos hb]
      rw [scan_some_eq y rest (x + 1) sX]
      have harith : x + 1 + (rest.takeWhile opaqueTest).length =
          x + (a :: rest.takeWhile opaqueTest).length := by
        simp [List.length_cons]
        omega
      rw [harith]
    · have hb : opaqueTest a = false := by simp [opaqueTest, h]
      rw [scanRowAux]
      rw [if_neg h]
      rw [List.takeWhile_cons_of_neg (by simp [hb]), List.dropWhile_cons_of_neg (by simp [hb])]
      simp only [List.length_nil, Nat.add_zero]
      congr 1
      rw [scanRowAux]
      rw [if_neg h]

theorem scan_none_eq (y : ℕ) : ∀ (l : List ℕ) (x : ℕ),
    scanRowAux y l x none = concatStrs ((maxRunsAux l x).map fun r => pathCmd r.1 y r.2)
  | [], x => by simp [scanRowAux, maxRunsAux, concatStrs]
  | a :: rest, x => by
    by_cases h : 128 < a
    · have hb : opaqueTest a = true := by simp [opaqueTest, h]
      rw [scanRowAux, if_pos h, scan_some_eq]
      rw [maxRunsAux.eq_2, if_pos hb]
      simp only [List.map_cons, concatStrs]
      have h1 : x + 1 + (rest.takeWhile opaqueTest).length - x =
          1 + (rest.takeWhile opaqueTest).length := by omega
      have h2 : x + 1 + (rest.takeWhile opaqueTest).length =
          x + (1 + (rest.takeWhile opaqueTest).length) := by omega
      rw [h1, h2]
      congr 1
      exact scan_none_eq y (rest.dropWhile opaqueTest) (x + (1 + (rest.takeWhile opaqueTest).length))
    · have hb : opaqueTest a = false := by simp [opaqueTest, h]
      rw [scanRowAux, if_neg h]
      rw [maxRunsAux.eq_2, if_neg (by simp [hb])]
      exact scan_none_eq y rest (x + 1)
termination_by l _ => l.length
decreasing_by
  · simp only [List.length_cons]
    exact Nat.lt_succ_of_le (length_dropWhile_le _ rest)
  · simp only [List.length_cons]
    exact Nat.lt_succ_self _

theorem maxRunsAux_shift : ∀ (l : List ℕ) (x : ℕ),
    maxRunsAux l x = (maxRunsAux l 0).map (fun r => (r.1 + x, r.2))
  | [], x => by simp [maxRunsAux]
  | a :: rest, x => by
    by_cases hb : opaqueTest a = true
    · rw [maxRunsAux.eq_2, if_pos hb, maxRunsAux.eq_2, if_pos hb]
      simp only [List.map_cons, Nat.zero_add]
      congr 1
      rw [maxRunsAux_shift (rest.dropWhile opaqueTest) (x + (1 + (rest.takeWhile opaqueTest).length)),
        maxRunsAux_shift (rest.dropWhile opaqueTest) (1 + (rest.takeWhile opaqueTest).length)]
      rw [List.map_map]
      apply List.map_congr_left
      intro r _
      simp only [Function.comp_apply, Prod.mk.injEq]
      exact ⟨by omega, trivial⟩
    · rw [maxRunsAux.eq_2, if_neg (by simp [hb]), maxRunsAux.eq_2, if_neg (by simp [hb])]
      rw [maxRunsAux_shift rest (x + 1), maxRunsAux_shift rest (0 + 1)]
      rw [List.map_map]
      apply List.map_congr_left
      intro r _
      simp only [Function.comp_apply, Prod.mk.injEq]
      exact ⟨by omega, trivial⟩
termination_by l _ => l.length
decreasing_by
  · simp only [List.length_cons]
    exact Nat.lt_succ_of_le (length_dropWhile_le _ rest)
  · simp only [List.length_cons]
    exact Nat.lt_succ_of_le (length_dropWhile_le _ rest)
  · simp only [List.length_cons]
    exact Nat.lt_succ_self _
  · simp only [List.length_cons]
    exact Nat.lt_succ_self _

theorem maxRuns_nil : maxRuns [] = [] := by simp [maxRuns, maxRunsAux]

theorem maxRuns_cons_neg (a : ℕ) (rest : List ℕ) (hb : opaqueTest a = false) :
    maxRuns (a :: rest) = (maxRuns rest).map (fun r => (r.1 + 1, r.2)) := by
  unfold maxRuns
  rw [maxRunsAux.eq_2, if_neg (by simp [hb])]
  exact maxRunsAux_shift rest 1

theorem maxRuns_cons_pos (a : ℕ) (rest : List ℕ) (hb : opaqueTest a = true) :
    maxRuns (a :: rest) = (0, 1 + (rest.takeWhile opaqueTest).length) ::
      (maxRuns (rest.dropWhile opaqueTest)).map
        (fun r => (r.1 + (1 + (rest.takeWhile opaqueTest).length), r.2)) := by
  unfold maxRuns
  rw [maxRunsAux.eq_2, if_pos hb]
  simp only [Nat.zero_add]
  congr 1
  exact maxRunsAux_shift _ _

theorem isMaxRun_iff (row : List ℕ) (s n : ℕ) :
    isMaxRun row (s, n) = true ↔
      0 < n ∧ s + n ≤ row.length ∧ (∀ i, i < n → runBool row (s + i) = true) ∧
      (s = 0 ∨ runBool row (s - 1) = false) ∧ runBool row (s + n) = false := by
  simp only [isMaxRun, Bool.and_eq_true, decide_eq_true_eq, List.all_eq_true,
    List.mem_range, Bool.or_eq_true, Bool.not_eq_true']
  tauto

theorem runBool_cons_zero (a : ℕ) (rest : List ℕ) : runBool (a :: rest) 0 = opaqueTest a := rfl

theorem runBool_cons_succ (a : ℕ) (rest : List ℕ) (k : ℕ) :
    runBool (a :: rest) (k + 1) = runBool rest k := rfl

theorem runBool_rest_split (rest : List ℕ) (j : ℕ) :
    runBool rest ((rest.takeWhile opaqueTest).length + j) =
      runBool (rest.dropWhile opaqueTest) j := by
  unfold runBool
  congr 1
  calc rest.getD ((rest.takeWhile opaqueTest).length + j) 0
      = (rest.takeWhile opaqueTest ++ rest.dropWhile opaqueTest).getD
          ((rest.takeWhile opaqueTest).length + j) 0 := by
        rw [List.takeWhile_append_dropWhile]
    _ = (rest.dropWhile opaqueTest).getD
          ((rest.takeWhile opaqueTest).length + j - (rest.takeWhile opaqueTest).length) 0 :=
        List.getD_append_right _ _ _ _ (Nat.le_add_right _ _)
    _ = (rest.dropWhile opaqueTest).getD j 0 := by rw [Nat.add_sub_cancel_left]

theorem runBool_takeWhile (rest : List ℕ) (j : ℕ)
    (hj : j < (rest.takeWhile opaqueTest).length) : runBool rest j = true := by
  unfold runBool
  have hstep : rest.getD j 0 = (rest.takeWhile opaqueTest).getD j 0 := by
    calc rest.getD j 0
        = (rest.takeWhile opaqueTest ++ rest.dropWhile opaqueTest).getD j 0 := by
          rw [List.takeWhile_append_dropWhile]
      _ = (rest.takeWhile opaqueTest).getD j 0 := List.getD_append _ _ _ _ hj
  rw [hstep, List.getD_eq_getElem _ _ hj]
  exact List.mem_takeWhile_imp (List.getElem_mem hj)

theorem runBool_dropWhile_zero : ∀ l : List ℕ, runBool (l.dropWhile opaqueTest) 0 = false
  | [] => by simp [runBool, opaqueTest]
  | a :: rest => by
    by_cases hb : opaqueTest a = true
    · rw [List.dropWhile_cons_of_pos hb]
      exact runBool_dropWhile_zero rest
    · rw [List.dropWhile_cons_of_neg (by simpa using hb), runBool_cons_zero]
      simpa using hb

theorem takeWhile_len_le (rest : List ℕ) :
    (rest.takeWhile opaqueTest).length ≤ rest.length :=
  List.Sublist.length_le (List.takeWhile_sublist _)

theorem split_len (rest : List ℕ) :
    rest.length = (rest.takeWhile opaqueTest).length + (rest.dropWhile opaqueTest).length := by
  conv_lhs => rw [← List.takeWhile_append_dropWhile (p := opaqueTest) (l := rest)]
  rw [List.length_append]

theorem isMaxRun_shift_one (a : ℕ) (rest : List ℕ) (hb : opaqueTest a = false)
    (s n : ℕ) (h : isMaxRun rest (s, n) = true) : isMaxRun (a :: rest) (s + 1, n) = true := by
  rw [isMaxRun_iff] at h ⊢
  obtain ⟨h1, h2, h3, h4, h5⟩ := h
  refine ⟨h1, by simp only [List.length_cons]; omega, ?_, ?_, ?_⟩
  · intro i hi
    have he : s + 1 + i = (s + i) + 1 := by omega
    rw [he, runBool_cons_succ]
    exact h3 i hi
  · right
    simp only [Nat.add_sub_cancel]
    cases s with
    | zero => rw [runBool_cons_zero]; exact hb
    | succ k =>
      rw [runBool_cons_succ]
      rcases h4 with h0 | hr
      · exact absurd h0 (Nat.succ_ne_zero k)
      · simpa using hr
  · have he : s + 1 + n = (s + n) + 1 := by omega
    rw [he, runBool_cons_succ]
    exact h5

theorem isMaxRun_head (a : ℕ) (rest : List ℕ) (hb : opaqueTest a = true) :
    isMaxRun (a :: rest) (0, 1 + (rest.takeWhile opaqueTest).length) = true := by
  rw [isMaxRun_iff]
  refine ⟨by omega, ?_, ?_, Or.inl rfl, ?_⟩
  · have := takeWhile_len_le rest
    simp only [List.length_cons]
    omega
  · intro i hi
    cases i with
    | zero => exact hb
    | succ j =>
      have hj : j < (rest.takeWhile opaqueTest).length := by omega
      have he : 0 + (j + 1) = j + 1 := by omega
      rw [he, runBool_cons_succ]
      exact runBool_takeWhile rest j hj
  · have hsplit0 := runBool_rest_split rest 0
    rw [Nat.add_zero] at hsplit0
    have he : 0 + (1 + (rest.takeWhile opaqueTest).length) =
        (rest.takeWhile opaqueTest).length + 1 := by omega
    rw [he, runBool_cons_succ, hsplit0]
    exact runBool_dropWhile_zero rest

theorem isMaxRun_tail (a : ℕ) (rest : List ℕ) (hb : opaqueTest a = true) (s n : ℕ)
    (h : isMaxRun (rest.dropWhile opaqueTest) (s, n) = true) :
    isMaxRun (a :: rest) (s + (1 + (rest.takeWhile opaqueTest).length), n) = true := by
  rw [isMaxRun_iff] at h ⊢
  obtain ⟨h1, h2, h3, h4, h5⟩ := h
  have hs0 : s ≠ 0 := by
    intro h0
    have hz := h3 0 h1
    rw [h0, Nat.add_zero, runBool_dropWhile_zero] at hz
    cases hz
  have hlen := split_len rest
  refine ⟨h1, ?_, ?_, ?_, ?_⟩
  · simp only [List.length_cons]
    omega
  · intro i hi
    have he : s + (1 + (rest.takeWhile opaqueTest).length) + i =
        ((rest.takeWhile opaqueTest).length + (s + i)) + 1 := by omega
    rw [he, runBool_cons_succ, runBool_rest_split]
    exact h3 i hi
  · right
    have he : s + (1 + (rest.takeWhile opaqueTest).length) - 1 =
        ((rest.takeWhile opaqueTest).length + (s - 1)) + 1 := by omega
    rw [he, runBool_cons_succ, runBool_rest_split]
    rcases h4 with h0 | hr
    · exact absurd h0 hs0
    · exact hr
  · have he : s + (1 + (rest.takeWhile opaqueTest).length) + n =
        ((rest.takeWhile opaqueTest).length + (s + n)) + 1 := by omega
    rw [he, runBool_cons_succ, runBool_rest_split]
    exact h5

theorem maxRuns_isMaxRun : ∀ (row : List ℕ), ∀ r ∈ maxRuns row, isMaxRun row r = true
  | [] => by simp [maxRuns_nil]
  | a :: rest => by
    by_cases hb : opaqueTest a = true
    · rw [maxRuns_cons_pos a rest hb]
      intro r hr
      rcases List.mem_cons.mp hr with h | h
      · subst h
        exact isMaxRun_head a rest hb
      · obtain ⟨⟨s, n⟩, hmem, rfl⟩ := List.mem_map.mp h
        exact isMaxRun_tail a rest hb s n
          (maxRuns_isMaxRun (rest.dropWhile opaqueTest) (s, n) hmem)
    · rw [maxRuns_cons_neg a rest (by simpa using hb)]
      intro r hr
      obtain ⟨⟨s, n⟩, hmem, rfl⟩ := List.mem_map.mp hr
      exact isMaxRun_shift_one a rest (by simpa using hb) s n
        (maxRuns_isMaxRun rest (s, n) hmem)
termination_by row => row.length
decreasing_by
  · simp only [List.length_cons]
    exact Nat.lt_succ_of_le (length_dropWhile_le _ rest)
  · simp only [List.length_cons]
    exact Nat.lt_succ_self _

theorem coveredBy_iff (rs : List (ℕ × ℕ)) (x : ℕ) :
    coveredBy rs x = true ↔ ∃ r ∈ rs, r.1 ≤ x ∧ x < r.1 + r.2 := by
  simp [coveredBy, List.any_eq_true]

theorem maxRuns_cover : ∀ (row : List ℕ) (x : ℕ), x < row.length → runBool row x = true →
    coveredBy (maxRuns row) x = true
  | [], x => by
    intro hx _
    simp at hx
  | a :: rest, x => by
    intro hx hr
    by_cases hb : opaqueTest a = true
    · rw [maxRuns_cons_pos a rest hb, coveredBy_iff]
      by_cases hsm : x < 1 + (rest.takeWhile opaqueTest).length
      · exact ⟨(0, 1 + (rest.takeWhile opaqueTest).length), List.mem_cons_self _ _,
          Nat.zero_le x, by omega⟩
      · push_neg at hsm
        have hlen := split_len rest
        have hxj : x = ((rest.takeWhile opaqueTest).length + (x - 1 -
            (rest.takeWhile opaqueTest).length)) + 1 := by omega
        have hrj : runBool (rest.dropWhile opaqueTest)
            (x - 1 - (rest.takeWhile opaqueTest).length) = true := by
          rw [← runBool_rest_split, ← runBool_cons_succ a, ← hxj]
          exact hr
        have hjlen : x - 1 - (rest.takeWhile opaqueTest).length <
            (rest.dropWhile opaqueTest).length := by
          simp only [List.length_cons] at hx
          omega
        have hIH := maxRuns_cover (rest.dropWhile opaqueTest)
          (x - 1 - (rest.takeWhile opaqueTest).length) hjlen hrj
        rw [coveredBy_iff] at hIH
        obtain ⟨⟨s, n⟩, hmem, hle, hlt⟩ := hIH
        refine ⟨(s + (1 + (rest.takeWhile opaqueTest).length), n), ?_, by omega, by omega⟩
        exact List.mem_cons_of_mem _ (List.mem_map.mpr ⟨(s, n), hmem, rfl⟩)
    · rw [maxRuns_cons_neg a rest (by simpa using hb), coveredBy_iff]
      cases x with
      | zero =>
        rw [runBool_cons_zero] at hr
        exact absurd hr (by simpa using hb)
      | succ j =>
        rw [runBool_cons_succ] at hr
        have hjlen : j < rest.length := by
          simp only [List.length_cons] at hx
          omega
        have hIH := maxRuns_cover rest j hjlen hr
        rw [coveredBy_iff] at hIH
        obtain ⟨⟨s, n⟩, hmem, hle, hlt⟩ := hIH
        exact ⟨(s + 1, n), List.mem_map.mpr ⟨(s, n), hmem, rfl⟩, by omega, by omega⟩
termination_by row _ => row.length
decreasing_by
  · simp only [List.length_cons]
    exact Nat.lt_succ_of_le (length_dropWhile_le _ rest)
  · simp only [List.length_cons]
    exact Nat.lt_succ_self _

theorem maxRunsAux_start_ge (l : List ℕ) (x : ℕ) : ∀ r ∈ maxRunsAux l x, x ≤ r.1 := by
  intro r hr
  rw [maxRunsAux_shift] at hr
  obtain ⟨r', _, rfl⟩ := List.mem_map.mp hr
  exact Nat.le_add_left x r'.1

theorem maxRunsAux_ordered : ∀ (l : List ℕ) (x : ℕ), runsOrdered (maxRunsAux l x) = true
  | [], x => by simp [maxRunsAux, runsOrdered]
  | a :: rest, x => by
    by_cases hb : opaqueTest a = true
    · rw [maxRunsAux.eq_2, if_pos hb]
      simp only
      have htail := maxRunsAux_ordered (rest.dropWhile opaqueTest)
        (x + (1 + (rest.takeWhile opaqueTest).length))
      cases htl : maxRunsAux (rest.dropWhile opaqueTest)
          (x + (1 + (rest.takeWhile opaqueTest).length)) with
      | nil => rfl
      | cons r₂ rs =>
        have hge : x + (1 + (rest.takeWhile opaqueTest).length) ≤ r₂.1 :=
          maxRunsAux_start_ge _ _ r₂ (by rw [htl]; exact List.mem_cons_self _ _)
        rw [htl] at htail
        rw [runsOrdered]
        simp only [Bool.and_eq_true, decide_eq_true_eq]
        exact ⟨by omega, htail⟩
    · rw [maxRunsAux.eq_2, if_neg (by simp [hb])]
      exact maxRunsAux_ordered rest (x + 1)
termination_by l _ => l.length
decreasing_by
  · simp only [List.length_cons]
    exact Nat.lt_succ_of_le (length_dropWhile_le _ rest)
  · simp only [List.length_cons]
    exact Nat.lt_succ_self _

theorem runsSpecOK_maxRuns (row : List ℕ) : runsSpecOK row (maxRuns row) = true := by
  unfold runsSpecOK
  rw [Bool.and_eq_true, Bool.and_eq_true]
  refine ⟨⟨?_, ?_⟩, maxRunsAux_ordered row 0⟩
  · rw [List.all_eq_true]
    intro r hr
    exact maxRuns_isMaxRun row r hr
  · rw [List.all_eq_true]
    intro x hx
    rw [List.mem_range] at hx
    by_cases hrb : runBool row x = true
    · rw [maxRuns_cover row x hx hrb]
      simp
    · rw [Bool.not_eq_true] at hrb
      rw [hrb]
      rfl

/-- Prepending to a string preserves an SVG closing tag at its end. -/
theorem svgTail_append (s t : String) (h : svgTail t = true) : svgTail (s ++ t) = true := by
  simp only [svgTail, List.isSuffixOf_iff_suffix, String.toList, String.data_append] at h ⊢
  exact h.trans (List.suffix_append _ _)

/-- Appending to a string preserves an SVG opening tag at its start. -/
theorem svgHead_append (s t : String) (h : svgHead s = true) : svgHead (s ++ t) = true := by
  simp only [svgHead, List.isPrefixOf_iff_prefix, String.toList, String.data_append] at h ⊢
  exact h.trans (List.prefix_append _ _)

/-- A string that starts with `<svg` is not empty. -/
theorem ne_empty_of_svgHead (s : String) (h : svgHead s = true) : (s == "") = false := by
  rw [beq_eq_false_iff_ne]
  intro he
  rw [he] at h
  simp [svgHead] at h

/-- Every instance of the SVG template is a well-formed SVG document. -/
theorem isSvgDoc_svgWrap (w h : ℕ) (paths : String) : isSvgDoc (svgWrap w h paths) = true := by
  have hh : svgHead (svgWrap w h paths) = true := by
    simp only [svgWrap]
    repeat apply svgHead_append
    decide
  have ht : svgTail (svgWrap w h paths) = true := by
    simp only [svgWrap]
    apply svgTail_append
    decide
  simp [isSvgDoc, hh, ht, ne_empty_of_svgHead _ hh]

/-- The output alpha channel of the segmentation loop is binary. -/
theorem processed_alpha_binary (s : ProcessingSettings) (img : ImageSurface) :
    ((processSealImage s img).data.all fun p => (p.a == 0) || (p.a == 255)) = true := by
  rw [List.all_eq_true]
  intro p hp
  simp only [processSealImage, List.mem_map] at hp
  obtain ⟨q, hq, rfl⟩ := hp
  by_cases h : shouldKeep s q
  · simp [processPixel, h]
  · simp [processPixel, h]

/-- The default red target color `#d90000` is itself kept by `redSettings`. -/
theorem target_kept_red : shouldKeep redSettings (targetPixel redSettings) = true := by
  have ht : targetPixel redSettings = ⟨217, 0, 0, 255⟩ := rfl
  rw [ht]
  norm_num [shouldKeep, redSettings]

/-- A value strictly within half a unit of the integer `m` rounds to `m`. -/
theorem roundMantissa_eq (scaled : ℚ) (m : ℤ)
    (hlo : (m : ℚ) - 1/2 < scaled) (hhi : scaled < (m : ℚ) + 1/2) :
    roundMantissa scaled = m := by
  unfold roundMantissa
  by_cases hc : (m : ℚ) ≤ scaled
  · have hfl : ⌊scaled⌋ = m := by
      rw [Int.floor_eq_iff]
      exact ⟨hc, by push_cast; linarith⟩
    rw [hfl]
    rw [if_pos (by linarith)]
  · push_neg at hc
    have hfl : ⌊scaled⌋ = m - 1 := by
      rw [Int.floor_eq_iff]
      constructor
      · push_cast
        linarith
      · push_cast
        linarith
    rw [hfl]
    rw [if_neg (by push_cast; linarith)]
    rw [if_pos (by push_cast; linarith)]
    omega

/-- Rounding a nonnegative significand yields a nonnegative integer. -/
theorem roundMantissa_nonneg (scaled : ℚ) (h : 0 ≤ scaled) : 0 ≤ roundMantissa scaled := by
  unfold roundMantissa
  have hf : 0 ≤ ⌊scaled⌋ := Int.floor_nonneg.mpr h
  split
  · exact hf
  · split
    · omega
    · split
      · exact hf
      · omega

/-- Uniqueness of the base-2 integer logarithm from a bracketing pair of powers. -/
theorem int_log_two_eq (x : ℚ) (k : ℤ) (hx : 0 < x)
    (h1 : (2 : ℚ) ^ k ≤ x) (h2 : x < (2 : ℚ) ^ (k + 1)) : Int.log 2 x = k := by
  have hc : ((2 : ℕ) : ℚ) = (2 : ℚ) := by norm_num
  have ha : k ≤ Int.log 2 x := by
    rw [← Int.zpow_le_iff_le_log (by norm_num) hx]
    rw [hc]
    exact h1
  have hb : Int.log 2 x < k + 1 := by
    rw [← Int.lt_zpow_iff_log_lt (by norm_num) hx]
    rw [hc]
    exact h2
  omega

/-- Evaluation rule for `floatRound`: if `m * 2^e` is a normal double representation and `x` lies strictly within half an ulp of it, the rounding returns `m * 2^e`. -/
theorem floatRound_eq_of (x : ℚ) (m e : ℤ)
    (h52 : (2 : ℚ) ^ (52 + e) ≤ x) (h53 : x < (2 : ℚ) ^ (53 + e))
    (hlo : (m : ℚ) - 1/2 < x * (2 : ℚ) ^ (-e)) (hhi : x * (2 : ℚ) ^ (-e) < (m : ℚ) + 1/2) :
    floatRound x = (m : ℚ) * (2 : ℚ) ^ e := by
  have hxpos : 0 < x := lt_of_lt_of_le (by positivity) h52
  have habs : |x| = x := abs_of_pos hxpos
  have hlog2 : Int.log 2 x = 52 + e := by
    refine int_log_two_eq x (52 + e) hxpos h52 ?_
    have h : 52 + e + 1 = 53 + e := by ring
    rw [h]
    exact h53
  unfold floatRound
  rw [if_neg (ne_of_gt hxpos), if_neg (not_lt.mpr (le_of_lt hxpos))]
  rw [habs, hlog2]
  have he : (52 : ℤ) + e - 52 = e := by ring
  rw [he]
  rw [roundMantissa_eq (x * (2 : ℚ) ^ (-e)) m hlo hhi]
  ring

/-- Integers below `2^53` are exactly representable: rounding is the identity on them. -/
theorem floatRound_natCast (n : ℕ) (hn : n < 2 ^ 53) : floatRound (n : ℚ) = n := by
  rcases Nat.eq_zero_or_pos n with h0 | hpos
  · subst h0
    simp [floatRound]
  · have hn0 : n ≠ 0 := by omega
    have hklow : 2 ^ Nat.log 2 n ≤ n := Nat.pow_log_le_self 2 hn0
    have hkhigh : n < 2 ^ (Nat.log 2 n + 1) := Nat.lt_pow_succ_log_self (by norm_num) n
    have hk52 : Nat.log 2 n ≤ 52 := by
      by_contra hgt
      push_neg at hgt
      have h2 : (2 : ℕ) ^ 53 ≤ 2 ^ Nat.log 2 n := Nat.pow_le_pow_right (by norm_num) (by omega)
      omega
    have hq : (0 : ℚ) < 2 ^ (52 - Nat.log 2 n) := by positivity
    have hscaled : (n : ℚ) * (2 : ℚ) ^ (-((Nat.log 2 n : ℤ) - 52)) =
        ((n * 2 ^ (52 - Nat.log 2 n) : ℕ) : ℚ) := by
      have h1 : -((Nat.log 2 n : ℤ) - 52) = ((52 - Nat.log 2 n : ℕ) : ℤ) := by
        have := Nat.cast_sub (R := ℤ) hk52
        omega
      rw [h1, zpow_natCast]
      push_cast
      ring
    have hmain := floatRound_eq_of (n : ℚ) ((n * 2 ^ (52 - Nat.log 2 n) : ℕ) : ℤ)
      ((Nat.log 2 n : ℤ) - 52) ?_ ?_ ?_ ?_
    · rw [hmain]
      have h1 : ((Nat.log 2 n : ℤ) - 52) = -(((52 - Nat.log 2 n : ℕ)) : ℤ) := by
        have := Nat.cast_sub (R := ℤ) hk52
        omega
      rw [h1, zpow_neg, zpow_natCast]
      push_cast
      rw [mul_assoc, mul_inv_cancel₀ (ne_of_gt hq), mul_one]
    · have h2 : (52 : ℤ) + ((Nat.log 2 n : ℤ) - 52) = ((Nat.log 2 n : ℕ) : ℤ) := by ring
      rw [h2, zpow_natCast]
      exact_mod_cast hklow
    · have h2 : (53 : ℤ) + ((Nat.log 2 n : ℤ) - 52) = ((Nat.log 2 n + 1 : ℕ) : ℤ) := by
        push_cast
        ring
      rw [h2, zpow_natCast]
      exact_mod_cast hkhigh
    · rw [hscaled]
      push_cast
      linarith
    · rw [hscaled]
      push_cast
      linarith

/-- IEEE-754 rounding to nearest is an odd function. -/
theorem floatRound_neg (x : ℚ) : floatRound (-x) = -floatRound x := by
  rcases lt_trichotomy x 0 with hneg | h0 | hpos
  · have hne : x ≠ 0 := ne_of_lt hneg
    unfold floatRound
    rw [if_neg (by simpa using hne), if_neg hne]
    rw [abs_neg]
    rw [if_neg (by linarith), if_pos hneg]
    ring
  · rw [h0]
    simp [floatRound]
  · have hne : x ≠ 0 := ne_of_gt hpos
    unfold floatRound
    rw [if_neg (by simpa using hne), if_neg hne]
    rw [abs_neg]
    rw [if_pos (by linarith), if_neg (by linarith)]
    ring

/-- Signed integers of magnitude below `2^53` round to themselves. -/
theorem floatRound_intCast (z : ℤ) (hz : z.natAbs < 2 ^ 53) : floatRound (z : ℚ) = z := by
  rcases le_or_lt 0 z with hpos | hneg
  · have h0 : ((z.toNat : ℕ) : ℤ) = z := Int.toNat_of_nonneg hpos
    have h1 : ((z.toNat : ℕ) : ℚ) = (z : ℚ) := by
      calc ((z.toNat : ℕ) : ℚ) = (((z.toNat : ℕ) : ℤ) : ℚ) := by push_cast; ring
        _ = (z : ℚ) := by rw [h0]
    have hlt : z.toNat < 2 ^ 53 := by omega
    rw [← h1, floatRound_natCast z.toNat hlt, h1]
  · have h0 : (((-z).toNat : ℕ) : ℤ) = -z := Int.toNat_of_nonneg (by omega)
    have h1 : (z : ℚ) = -((((-z).toNat : ℕ)) : ℚ) := by
      calc (z : ℚ) = -((-z : ℤ) : ℚ) := by push_cast; ring
        _ = -((((-z).toNat : ℕ) : ℤ) : ℚ) := by rw [h0]
        _ = -((((-z).toNat : ℕ)) : ℚ) := by push_cast; ring
    have hlt : (-z).toNat < 2 ^ 53 := by omega
    rw [h1, floatRound_neg, floatRound_natCast (-z).toNat hlt]

/-- Rounding preserves nonnegativity. -/
theorem floatRound_nonneg (x : ℚ) (hx : 0 ≤ x) : 0 ≤ floatRound x := by
  rcases eq_or_lt_of_le hx with h0 | hpos
  · rw [← h0]
    simp [floatRound]
  · unfold floatRound
    rw [if_neg (ne_of_gt hpos), if_neg (not_lt.mpr (le_of_lt hpos))]
    rw [one_mul]
    have hm : 0 ≤ roundMantissa (|x| * 2 ^ (-(Int.log 2 |x| - 52))) :=
      roundMantissa_nonneg _ (by positivity)
    have hp : (0 : ℚ) ≤ (2 : ℚ) ^ (Int.log 2 |x| - 52) := by positivity
    exact mul_nonneg (by exact_mod_cast hm) hp

/-- The double `15 / 100` (the value of `0.15`), written as an exact dyadic rational. -/
theorem jsDiv_15_100 : jsDiv 15 100 = 5404319552844595 / 36028797018963968 := by
  unfold jsDiv
  have h := floatRound_eq_of ((15 : ℚ) / 100) 5404319552844595 (-55)
    (by norm_num) (by norm_num) (by norm_num) (by norm_num)
  rw [h]
  norm_num

/-- The double `1 + 0.15` — strictly below the exact `1.15`. -/
theorem jsAdd_1_015 : jsAdd 1 (5404319552844595 / 36028797018963968 : ℚ) =
    2589569785738035 / 2251799813685248 := by
  unfold jsAdd
  have h := floatRound_eq_of ((1 : ℚ) + 5404319552844595 / 36028797018963968)
    5179139571476070 (-52) (by norm_num) (by norm_num) (by norm_num) (by norm_num)
  rw [h]
  norm_num

/-- The double `100 * (1 + 15/100)`: `8092405580431359 / 2^46`, which is strictly below 115 (the famous `100 * 1.15 === 114.99999999999999`). -/
theorem jsMul_100_ratio : jsMul 100 (2589569785738035 / 2251799813685248 : ℚ) =
    8092405580431359 / 70368744177664 := by
  unfold jsMul
  have h := floatRound_eq_of ((100 : ℚ) * (2589569785738035 / 2251799813685248))
    8092405580431359 (-46) (by norm_num) (by norm_num) (by norm_num) (by norm_num)
  rw [h]
  norm_num

/-- The double `215 / 3`. -/
theorem jsDiv_215_3 : jsDiv 215 3 = 5043093332732587 / 70368744177664 := by
  unfold jsDiv
  have h := floatRound_eq_of ((215 : ℚ) / 3) 5043093332732587 (-46)
    (by norm_num) (by norm_num) (by norm_num) (by norm_num)
  rw [h]
  norm_num

/-- The double `260 / 3`. -/
theorem jsDiv_260_3 : jsDiv 260 3 = 6098624495397547 / 70368744177664 := by
  unfold jsDiv
  have h := floatRound_eq_of ((260 : ℚ) / 3) 6098624495397547 (-46)
    (by norm_num) (by norm_num) (by norm_num) (by norm_num)
  rw [h]
  norm_num

/-- The double `50 / 100` is exactly one half (a dyadic value). -/
theorem jsDiv_50_100 : jsDiv 50 100 = 1 / 2 := by
  unfold jsDiv
  have h := floatRound_eq_of ((50 : ℚ) / 100) 4503599627370496 (-53)
    (by norm_num) (by norm_num) (by norm_num) (by norm_num)
  rw [h]
  norm_num

/-- The double `1 + 0.5` is exactly `3/2`. -/
theorem jsAdd_1_half : jsAdd 1 (1 / 2 : ℚ) = 3 / 2 := by
  unfold jsAdd
  have h := floatRound_eq_of ((1 : ℚ) + 1 / 2) 6755399441055744 (-52)
    (by norm_num) (by norm_num) (by norm_num) (by norm_num)
  rw [h]
  norm_num

/-- For 8-bit channel values the two additions of the lightness numerator are exact. -/
theorem jsSum_eq (r g b : ℕ) (hr : r ≤ 255) (hg : g ≤ 255) (hb : b ≤ 255) :
    jsAdd (jsAdd (r : ℚ) (g : ℚ)) (b : ℚ) = (r : ℚ) + g + b := by
  unfold jsAdd
  have h1 : (r : ℚ) + g = ((r + g : ℕ) : ℚ) := by push_cast; ring
  rw [h1, floatRound_natCast (r + g) (by omega)]
  have h2 : ((r + g : ℕ) : ℚ) + b = ((r + g + b : ℕ) : ℚ) := by push_cast; ring
  rw [h2, floatRound_natCast (r + g + b) (by omega)]

/-- For 8-bit channel values the `colorDiff` subtraction is exact. -/
theorem jsDiff_eq (r g b : ℕ) (hr : r ≤ 255) (hg : g ≤ 255) (hb : b ≤ 255) :
    jsSub (r : ℚ) (max (g : ℚ) (b : ℚ)) = (r : ℚ) - max (g : ℚ) (b : ℚ) := by
  unfold jsSub
  have h1 : max (g : ℚ) (b : ℚ) = ((max g b : ℕ) : ℚ) := by
    rw [Nat.cast_max]
  rw [h1]
  have h2 : (r : ℚ) - ((max g b : ℕ) : ℚ) = (((r : ℤ) - ((max g b : ℕ) : ℤ) : ℤ) : ℚ) := by
    push_cast
    ring
  rw [h2, floatRound_intCast ((r : ℤ) - ((max g b : ℕ) : ℤ)) (by omega)]

/-- The red branch of the double-faithful classifier, characterized with the exact sum and difference substituted for their (exact) double evaluations. -/
theorem red_mode_js_iff (r g b a : ℕ) (hr : r ≤ 255) (hg : g ≤ 255) (hb : b ≤ 255)
    (s : ProcessingSettings) (hm : s.detectionMode = DetectionMode.red) :
    shouldKeepJS s ⟨r, g, b, a⟩ = true ↔
      (jsDiv ((r : ℚ) + g + b) 3 ≤ s.lightnessThreshold ∧
        (r : ℚ) > jsMul g (jsAdd 1 (jsDiv s.redSensitivity 100)) ∧
        (r : ℚ) > jsMul b (jsAdd 1 (jsDiv s.redSensitivity 100)) ∧
        (r : ℚ) - max (g : ℚ) (b : ℚ) ≥ s.chromaThreshold) := by
  simp only [shouldKeepJS]
  rw [if_pos hm]
  rw [jsSum_eq r g b hr hg hb, jsDiff_eq r g b hr hg hb]
  simp [decide_eq_true_eq]

/-- The double-faithful classifier keeps (200,30,30) under the spec scenario settings. -/
theorem keepJS_red_200 : shouldKeepJS redSettings ⟨200, 30, 30, 255⟩ = true := by
  rw [red_mode_js_iff 200 30 30 255 (by norm_num) (by norm_num) (by norm_num) redSettings rfl]
  have hmax : max ((30 : ℕ) : ℚ) ((30 : ℕ) : ℚ) = 30 := by norm_num
  refine ⟨?_, ?_, ?_, ?_⟩
  · have : ((200 : ℕ) : ℚ) + (30 : ℕ) + (30 : ℕ) = 260 := by norm_num
    rw [this, jsDiv_260_3]
    norm_num [redSettings]
  · have hrs : redSettings.redSensitivity = 50 := rfl
    rw [hrs, jsDiv_50_100, jsAdd_1_half]
    have : jsMul ((30 : ℕ) : ℚ) (3 / 2) = 45 := by
      unfold jsMul
      have h : ((30 : ℕ) : ℚ) * (3 / 2) = ((45 : ℕ) : ℚ) := by norm_num
      rw [h, floatRound_natCast 45 (by norm_num)]
      norm_num
    rw [this]
    norm_num
  · have hrs : redSettings.redSensitivity = 50 := rfl
    rw [hrs, jsDiv_50_100, jsAdd_1_half]
    have : jsMul ((30 : ℕ) : ℚ) (3 / 2) = 45 := by
      unfold jsMul
      have h : ((30 : ℕ) : ℚ) * (3 / 2) = ((45 : ℕ) : ℚ) := by norm_num
      rw [h, floatRound_natCast 45 (by norm_num)]
      norm_num
    rw [this]
    norm_num
  · rw [hmax]
    norm_num [redSettings]

/-- The double-faithful classifier rejects near-white (250,250,250). -/
theorem keepJS_red_250 : shouldKeepJS redSettings ⟨250, 250, 250, 255⟩ = false := by
  rw [Bool.eq_false_iff]
  intro hk
  rw [red_mode_js_iff 250 250 250 255 (by norm_num) (by norm_num) (by norm_num)
    redSettings rfl] at hk
  obtain ⟨h1, _, _, _⟩ := hk
  have hsum : ((250 : ℕ) : ℚ) + (250 : ℕ) + (250 : ℕ) = 750 := by norm_num
  rw [hsum] at h1
  have hdiv : jsDiv 750 3 = 250 := by
    unfold jsDiv
    have h : (750 : ℚ) / 3 = ((250 : ℕ) : ℚ) := by norm_num
    rw [h, floatRound_natCast 250 (by norm_num)]
    norm_num
  rw [hdiv] at h1
  norm_num [redSettings] at h1

/-- The double-faithful classifier keeps (115,100,0) at `redSensitivity = 15`: the rounded product `100 * 1.15` is below 115. -/
theorem keepJS_rs15_115 : shouldKeepJS rs15Settings ⟨115, 100, 0, 255⟩ = true := by
  rw [red_mode_js_iff 115 100 0 255 (by norm_num) (by norm_num) (by norm_num) rs15Settings rfl]
  have hrs : rs15Settings.redSensitivity = 15 := rfl
  refine ⟨?_, ?_, ?_, ?_⟩
  · have hsum : ((115 : ℕ) : ℚ) + (100 : ℕ) + (0 : ℕ) = 215 := by norm_num
    rw [hsum, jsDiv_215_3]
    norm_num [rs15Settings]
  · rw [hrs, jsDiv_15_100, jsAdd_1_015]
    have h100 : ((100 : ℕ) : ℚ) = 100 := by norm_num
    rw [h100, jsMul_100_ratio]
    norm_num
  · rw [hrs, jsDiv_15_100, jsAdd_1_015]
    have h0 : jsMul ((0 : ℕ) : ℚ) (2589569785738035 / 2251799813685248) = 0 := by
      unfold jsMul
      norm_num [floatRound]
    rw [h0]
    norm_num
  · have hmax : max ((100 : ℕ) : ℚ) ((0 : ℕ) : ℚ) = 100 := by norm_num
    rw [hmax]
    norm_num [rs15Settings]

/-- On nonnegative in-range values the WebIDL conversion is the floor. -/
theorem webIDL_of_nonneg (x : ℚ) (h0 : 0 ≤ x) (hlt : x < 2 ^ 32) :
    ((webIDLUnsignedLong x : ℕ) : ℤ) = ⌊x⌋ := by
  unfold webIDLUnsignedLong
  rw [if_neg (not_lt.mpr h0)]
  have h1 : 0 ≤ ⌊x⌋ := Int.floor_nonneg.mpr h0
  have h2 : ⌊x⌋ < 2 ^ 32 := by
    rw [Int.floor_lt]
    push_cast
    exact hlt
  rw [Int.emod_eq_of_lt h1 h2]
  exact Int.toNat_of_nonneg h1

/-- A product of integers below `2^32` is computed exactly by double multiplication. -/
theorem jsMul_natCast (u v : ℕ) (huv : u * v < 2 ^ 32) :
    jsMul (u : ℚ) (v : ℚ) = ((u * v : ℕ) : ℚ) := by
  unfold jsMul
  have h : (u : ℚ) * v = ((u * v : ℕ) : ℚ) := by push_cast; ring
  rw [h, floatRound_natCast (u * v) (by omega)]

/-- The WebIDL conversion is the identity on in-range integers. -/
theorem webIDL_natCast (n : ℕ) (hn : n < 2 ^ 32) : webIDLUnsignedLong (n : ℚ) = n := by
  have h := webIDL_of_nonneg (n : ℚ) (by positivity) (by exact_mod_cast hn)
  rw [Int.floor_natCast] at h
  exact_mod_cast h

/-- Both destination dimensions are the floors of the double products. -/
theorem upscale_trunc_parts (sw sh : ℕ) (scale : ℚ) (hpos : 0 < scale)
    (hw : jsMul (sw : ℚ) scale < 2 ^ 32) (hh : jsMul (sh : ℚ) scale < 2 ^ 32) :
    ((upscaleDims sw sh scale).1 : ℤ) = ⌊jsMul (sw : ℚ) scale⌋ ∧
    ((upscaleDims sw sh scale).2 : ℤ) = ⌊jsMul (sh : ℚ) scale⌋ := by
  have hw0 : 0 ≤ jsMul (sw : ℚ) scale := floatRound_nonneg _ (by positivity)
  have hh0 : 0 ≤ jsMul (sh : ℚ) scale := floatRound_nonneg _ (by positivity)
  exact ⟨webIDL_of_nonneg _ hw0 hw, webIDL_of_nonneg _ hh0 hh⟩

/-- The double product `1 * 0.5` is exactly one half. -/
theorem jsMul_1_half : jsMul ((1 : ℕ) : ℚ) (1 / 2) = 1 / 2 := by
  unfold jsMul
  have h : ((1 : ℕ) : ℚ) * (1 / 2) = 1 / 2 := by norm_num
  rw [h]
  have := floatRound_eq_of ((1 : ℚ) / 2) 4503599627370496 (-53)
    (by norm_num) (by norm_num) (by norm_num) (by norm_num)
  rw [this]
  norm_num

/-- The double product `3 * 0.5` is exactly `3/2`. -/
theorem jsMul_3_half : jsMul ((3 : ℕ) : ℚ) (1 / 2) = 3 / 2 := by
  unfold jsMul
  have h : ((3 : ℕ) : ℚ) * (1 / 2) = 3 / 2 := by norm_num
  rw [h]
  have := floatRound_eq_of ((3 : ℚ) / 2) 6755399441055744 (-52)
    (by norm_num) (by norm_num) (by norm_num) (by norm_num)
  rw [this]
  norm_num

/-- C1: for every source image and settings, `processSealImage` produces an
output of identical dimensions (and pixel count) in which every pixel has
alpha exactly 0 or exactly 255, and every pixel with alpha 255 has its RGB
channels equal, channel for channel, to the RGB parsed from
`settings.targetColor`, regardless of the pixel's original color. -/
theorem segmentation_binary_alpha_exact_recolor (s : ProcessingSettings) (img : ImageSurface) :
    (processSealImage s img).width = img.width ∧
    (processSealImage s img).height = img.height ∧
    (processSealImage s img).data.length = img.data.length ∧
    ((processSealImage s img).data.all fun p =>
      (p.a == 0) || ((p.a == 255) && (p.r == (hexToRgb s.targetColor).r) &&
        (p.g == (hexToRgb s.targetColor).g) && (p.b == (hexToRgb s.targetColor).b))) = true := by
  refine ⟨rfl, rfl, by simp [processSealImage], ?_⟩
  rw [List.all_eq_true]
  intro p hp
  simp only [processSealImage, List.mem_map] at hp
  obtain ⟨q, hq, rfl⟩ := hp
  by_cases h : shouldKeep s q
  · simp [processPixel, h]
  · simp [processPixel, h]

/-- C2 counterexample: the program's classifier evaluates the ratio test in
double precision, where `100 * (1 + 15/100)` is strictly below 115, so pixel
(115,100,0) with `redSensitivity = 15`, `lightnessThreshold = 220`,
`chromaThreshold = 15` is kept by the code while the claimed exact-rational
iff rejects it (`115 > 115` is false); the exact-arithmetic reading
`shouldKeep` indeed rejects it. -/
theorem red_mode_exact_iff_counterexample :
    shouldKeepJS rs15Settings ⟨115, 100, 0, 255⟩ = true ∧
    ¬(((115 : ℚ) + 100 + 0) / 3 ≤ rs15Settings.lightnessThreshold ∧
      (115 : ℚ) > 100 * (1 + rs15Settings.redSensitivity / 100) ∧
      (115 : ℚ) > 0 * (1 + rs15Settings.redSensitivity / 100) ∧
      (115 : ℚ) - max (100 : ℚ) (0 : ℚ) ≥ rs15Settings.chromaThreshold) ∧
    shouldKeep rs15Settings ⟨115, 100, 0, 255⟩ = false := by
  refine ⟨keepJS_rs15_115, ?_, ?_⟩
  · intro h
    obtain ⟨h1, h2, h3, h4⟩ := h
    norm_num [rs15Settings] at h2
  · norm_num [shouldKeep, rs15Settings]

/-- C2 (amended): in red mode the classifier keeps a pixel iff
`(r+g+b)/3 ≤ lightnessThreshold`, `r > g·(1 + redSensitivity/100)`,
`r > b·(1 + redSensitivity/100)` and `r − max(g,b) ≥ chromaThreshold`, with
the quotient `(r+g+b)/3`, the ratio `1 + redSensitivity/100` and the two
products evaluated in IEEE-754 double precision (the sums and the channel
difference are exact for 8-bit channels); in particular (200,30,30) is kept
and (250,250,250) is rejected under `lightnessThreshold = 220`,
`redSensitivity = 50`, `chromaThreshold = 15`, and (115,100,0) is kept at
`redSensitivity = 15` although the exact inequality `115 > 115` fails. -/
theorem red_mode_classifier_double_characterization (r g b a : ℕ)
    (hr : r ≤ 255) (hg : g ≤ 255) (hb : b ≤ 255)
    (s : ProcessingSettings) (hm : s.detectionMode = DetectionMode.red) :
    (shouldKeepJS s ⟨r, g, b, a⟩ = true ↔
      (jsDiv ((r : ℚ) + g + b) 3 ≤ s.lightnessThreshold ∧
        (r : ℚ) > jsMul g (jsAdd 1 (jsDiv s.redSensitivity 100)) ∧
        (r : ℚ) > jsMul b (jsAdd 1 (jsDiv s.redSensitivity 100)) ∧
        (r : ℚ) - max (g : ℚ) (b : ℚ) ≥ s.chromaThreshold)) ∧
    shouldKeepJS redSettings ⟨200, 30, 30, 255⟩ = true ∧
    shouldKeepJS redSettings ⟨250, 250, 250, 255⟩ = false ∧
    shouldKeepJS rs15Settings ⟨115, 100, 0, 255⟩ = true :=
  ⟨red_mode_js_iff r g b a hr hg hb s hm, keepJS_red_200, keepJS_red_250, keepJS_rs15_115⟩

/-- C2 witness: the double-precision characterization applied at the spec's
two scenarios and at the rounding-boundary pixel. -/
theorem red_mode_classifier_double_characterization_witness :
    shouldKeepJS redSettings ⟨200, 30, 30, 255⟩ = true ∧
    shouldKeepJS redSettings ⟨250, 250, 250, 255⟩ = false ∧
    shouldKeepJS rs15Settings ⟨115, 100, 0, 255⟩ = true :=
  (red_mode_classifier_double_characterization 200 30 30 255
    (by decide) (by decide) (by decide) redSettings rfl).2

/-- C3 counterexample: the kept set is NOT monotonically non-decreasing in
`lightnessThreshold` in black mode — the black pixel (0,0,0) is kept at
threshold 0 but rejected at the larger threshold 255 (the window narrows,
it does not widen). -/
theorem black_mode_threshold_widens_counterexample :
    blackLo.lightnessThreshold ≤ blackHi.lightnessThreshold ∧
    shouldKeep blackLo ⟨0, 0, 0, 255⟩ = true ∧
    shouldKeep blackHi ⟨0, 0, 0, 255⟩ = false := by
  refine ⟨by norm_num [blackLo, blackHi], ?_, ?_⟩
  · simp only [shouldKeep, blackLo]
    rw [if_neg (by decide)]
    norm_num
  · simp only [shouldKeep, blackHi]
    rw [if_neg (by decide)]
    norm_num

/-- C3 (amended): in black mode the classifier keeps a pixel iff
`(r+g+b)/3 < 255 − lightnessThreshold` and
`max(r,g,b) − min(r,g,b) < redSensitivity/2`; consequently a larger
`lightnessThreshold` NARROWS the darkness-acceptance window: the kept set is
monotonically non-increasing in `lightnessThreshold`. -/
theorem black_mode_classifier_characterization_antitone (r g b a : ℕ)
    (hr : r ≤ 255) (hg : g ≤ 255) (hb : b ≤ 255)
    (s : ProcessingSettings) (hm : s.detectionMode = DetectionMode.black) :
    (shouldKeep s ⟨r, g, b, a⟩ = true ↔
      (((r : ℚ) + g + b) / 3 < 255 - s.lightnessThreshold ∧
        max (r : ℚ) (max (g : ℚ) (b : ℚ)) - min (r : ℚ) (min (g : ℚ) (b : ℚ)) <
          s.redSensitivity / 2)) ∧
    (∀ t₁ t₂ : ℚ, t₁ ≤ t₂ →
      shouldKeep { s with lightnessThreshold := t₂ } ⟨r, g, b, a⟩ = true →
      shouldKeep { s with lightnessThreshold := t₁ } ⟨r, g, b, a⟩ = true) := by
  have hne : ¬ s.detectionMode = DetectionMode.red := by rw [hm]; intro h; cases h
  constructor
  · simp only [shouldKeep]
    rw [if_neg hne]
    simp [decide_eq_true_eq]
  · intro t₁ t₂ hle hkeep
    simp only [shouldKeep] at hkeep ⊢
    rw [if_neg hne] at hkeep ⊢
    simp only [decide_eq_true_eq] at hkeep ⊢
    obtain ⟨h1, h2⟩ := hkeep
    exact ⟨by linarith, h2⟩

/-- C3 witness: the characterization and its antitonicity applied to the
black pixel (0,0,0) with thresholds 0 and 40. -/
theorem black_mode_classifier_characterization_antitone_witness :
    shouldKeep blackLo ⟨0, 0, 0, 255⟩ = true ∧
    shouldKeep { blackLo with lightnessThreshold := 0 } ⟨0, 0, 0, 255⟩ = true := by
  have h := black_mode_classifier_characterization_antitone 0 0 0 255
    (by decide) (by decide) (by decide) blackLo rfl
  refine ⟨h.1.mpr (by norm_num [blackLo]), ?_⟩
  refine h.2 0 40 (by norm_num) ?_
  simp only [shouldKeep]
  rw [if_neg (by decide)]
  norm_num [blackLo]

/-- C4 counterexample: segmentation is not idempotent in general — with a
white target color under red-mode settings, the recolored pixel no longer
classifies as foreground, so a second pass clears its alpha and the buffers
differ. -/
theorem segmentation_idempotence_counterexample :
    processSealImage whiteTargetSettings (processSealImage whiteTargetSettings img1) ≠
      processSealImage whiteTargetSettings img1 := by
  have ht : hexToRgb whiteTargetSettings.targetColor = ⟨255, 255, 255⟩ := rfl
  have h1 : processSealImage whiteTargetSettings img1 = ⟨1, 1, [⟨255, 255, 255, 255⟩]⟩ := by
    have hk : shouldKeep whiteTargetSettings ⟨200, 30, 30, 255⟩ = true := by
      norm_num [shouldKeep, whiteTargetSettings]
    simp [processSealImage, img1, processPixel, hk, ht]
  have h2 : processSealImage whiteTargetSettings ⟨1, 1, [⟨255, 255, 255, 255⟩]⟩ =
      ⟨1, 1, [⟨255, 255, 255, 0⟩]⟩ := by
    have hk : shouldKeep whiteTargetSettings ⟨255, 255, 255, 255⟩ = false := by
      norm_num [shouldKeep, whiteTargetSettings]
    simp [processSealImage, processPixel, hk]
  rw [h1, h2]
  intro h
  cases h

/-- C4 (amended): segmentation is idempotent whenever the parsed target color
itself classifies as foreground under the same settings — then a second run
on the first run's output is byte-identical: kept pixels are kept again and
transparent pixels stay transparent. -/
theorem segmentation_idempotent_when_target_kept (s : ProcessingSettings) (img : ImageSurface)
    (h : shouldKeep s (targetPixel s) = true) :
    processSealImage s (processSealImage s img) = processSealImage s img := by
  have key : ∀ p, processPixel s (hexToRgb s.targetColor)
      (processPixel s (hexToRgb s.targetColor) p) =
        processPixel s (hexToRgb s.targetColor) p := by
    intro p
    by_cases hk : shouldKeep s p
    · have htp : shouldKeep s ⟨(hexToRgb s.targetColor).r, (hexToRgb s.targetColor).g,
          (hexToRgb s.targetColor).b, 255⟩ = true := h
      simp [processPixel, hk, htp]
    · have hsame : shouldKeep s ⟨p.r, p.g, p.b, 0⟩ = shouldKeep s p := rfl
      simp [processPixel, hk, hsame]
  simp only [processSealImage, List.map_map]
  congr 1
  · exact List.map_congr_left fun p _ => key p

/-- C4 witness: idempotence at the default red target `#d90000`, which the
red-mode settings keep. -/
theorem segmentation_idempotent_when_target_kept_witness :
    processSealImage redSettings (processSealImage redSettings img1) =
      processSealImage redSettings img1 :=
  segmentation_idempotent_when_target_kept redSettings img1 target_kept_red

/-- C5 counterexample: `hexToRgb` also accepts a 6-hex-digit string WITHOUT
the `#` prefix — "ff0000" is not in the claimed `#`-prefixed format yet
parses to (255,0,0) instead of falling back to the default (217,0,0). -/
theorem hexToRgb_unprefixed_six_digit_counterexample :
    hexToRgb "ff0000" = ⟨255, 0, 0⟩ ∧ hexToRgb "ff0000" ≠ ⟨217, 0, 0⟩ := by
  refine ⟨rfl, ?_⟩
  decide

/-- C5 (amended): `hexToRgb` parses a 6-hex-digit string with an OPTIONAL `#`
prefix (case-insensitive); every input outside that format — including
3-digit, 8-digit and named colors — yields the fixed default (217,0,0)
without raising; in particular "#d90000" gives (217,0,0) and "bad-input"
gives (217,0,0). -/
theorem hexToRgb_optional_hash_fallback (s : String) :
    (matchesHexFormat s = false → hexToRgb s = ⟨217, 0, 0⟩) ∧
    hexToRgb "#d90000" = ⟨217, 0, 0⟩ ∧
    hexToRgb "bad-input" = ⟨217, 0, 0⟩ ∧
    hexToRgb "#fff" = ⟨217, 0, 0⟩ ∧
    hexToRgb "#ff0000aa" = ⟨217, 0, 0⟩ ∧
    hexToRgb "ff0000" = ⟨255, 0, 0⟩ ∧
    hexToRgb "#Ff00Ab" = ⟨255, 0, 171⟩ := by
  refine ⟨?_, rfl, rfl, rfl, rfl, rfl, rfl⟩
  intro h
  unfold hexToRgb
  unfold matchesHexFormat at h
  split
  · next c₁ c₂ c₃ c₄ c₅ c₆ heq =>
      rw [heq] at h
      simp only at h
      rw [if_neg]
      simp [h]
  · rfl

/-- C5 witness: the fallback clause applied to the named color "red". -/
theorem hexToRgb_optional_hash_fallback_witness : hexToRgb "red" = ⟨217, 0, 0⟩ :=
  (hexToRgb_optional_hash_fallback "red").1 (by decide)

/-- C6 counterexample: a canvas dimension assignment truncates toward zero
(WebIDL unsigned long), so at scale 1/2 a 1-pixel-wide source gets
destination width trunc(0.5) = 0, not round(1 × 1/2) = 1 — and a 1×3 source
becomes 0×1, so even the aspect ratio is not preserved. -/
theorem upscale_dims_round_counterexample :
    upscaleDims 1 1 (1/2) = (0, 0) ∧
    upscaleDims 1 3 (1/2) = (0, 1) ∧
    round ((1 : ℚ) * (1/2)) = 1 ∧
    ((upscaleDims 1 1 (1/2)).1 : ℤ) ≠ round ((1 : ℚ) * (1/2)) := by
  have h1 : webIDLUnsignedLong (1 / 2 : ℚ) = 0 := by
    unfold webIDLUnsignedLong
    norm_num
  have h2 : webIDLUnsignedLong (3 / 2 : ℚ) = 1 := by
    unfold webIDLUnsignedLong
    norm_num
  have hu1 : upscaleDims 1 1 (1/2) = (0, 0) := by
    unfold upscaleDims
    rw [jsMul_1_half, h1]
  have hu3 : upscaleDims 1 3 (1/2) = (0, 1) := by
    unfold upscaleDims
    rw [jsMul_1_half, jsMul_3_half, h1, h2]
  have hround : round ((1 : ℚ) * (1/2)) = 1 := by
    norm_num [round_eq]
  refine ⟨hu1, hu3, hround, ?_⟩
  rw [hu1, hround]
  norm_num

/-- C6 (amended): `upscaleAndSharpen` computes `width × scale` and
`height × scale` in double arithmetic and assigns them to the destination
canvas, whose WebIDL `unsigned long` dimensions truncate toward zero (no
rounding): for positive in-range products both dimensions are the floors of
the double products; when the products are integers (e.g. any integer scale)
no truncation occurs, both dimensions carry the factor exactly and the aspect
ratio is preserved; scale 2 on a 100×100 input gives 200×200. -/
theorem upscale_dims_webidl_truncation (sw sh : ℕ) (scale : ℚ) (hpos : 0 < scale)
    (hw : jsMul (sw : ℚ) scale < 2 ^ 32) (hh : jsMul (sh : ℚ) scale < 2 ^ 32) :
    ((upscaleDims sw sh scale).1 : ℤ) = ⌊jsMul (sw : ℚ) scale⌋ ∧
    ((upscaleDims sw sh scale).2 : ℤ) = ⌊jsMul (sh : ℚ) scale⌋ ∧
    (∀ n : ℕ, sw * n < 2 ^ 32 → sh * n < 2 ^ 32 →
      upscaleDims sw sh (n : ℚ) = (sw * n, sh * n) ∧ sw * n * sh = sh * n * sw) ∧
    upscaleDims 100 100 2 = (200, 200) := by
  refine ⟨(upscale_trunc_parts sw sh scale hpos hw hh).1,
    (upscale_trunc_parts sw sh scale hpos hw hh).2, ?_, ?_⟩
  · intro n hwn hhn
    constructor
    · unfold upscaleDims
      rw [jsMul_natCast sw n hwn, jsMul_natCast sh n hhn,
        webIDL_natCast _ hwn, webIDL_natCast _ hhn]
    · ring
  · have h2 : (2 : ℚ) = ((2 : ℕ) : ℚ) := by norm_num
    unfold upscaleDims
    rw [h2, jsMul_natCast 100 2 (by norm_num), webIDL_natCast _ (by norm_num)]

/-- C6 witness: the truncation contract applied at scale 2 on a 100×100
source, where the products are exact integers. -/
theorem upscale_dims_webidl_truncation_witness : upscaleDims 100 100 2 = (200, 200) := by
  have h2 : (2 : ℚ) = ((2 : ℕ) : ℚ) := by norm_num
  have hm : jsMul ((100 : ℕ) : ℚ) 2 < 2 ^ 32 := by
    rw [h2, jsMul_natCast 100 2 (by norm_num)]
    norm_num
  exact (upscale_dims_webidl_truncation 100 100 2 (by norm_num) hm hm).2.2.2

set_option maxRecDepth 4000 in
/-- C7: the fallback tracer scans each row left to right and emits exactly
one rectangular path command `M<x>,<y>h<len>v1h-<len>z` per maximal
contiguous run of pixels with alpha > 128, all runs concatenated into a
single path inside an SVG root with `viewBox="0 0 <width> <height>"`
(`maxRuns` provably lists exactly the maximal opaque runs, ordered); in
particular the 3×3 surface with an opaque top row yields the fragment
`M0,0h3v1h-3z` and `viewBox="0 0 3 3"`. -/
theorem fallback_svg_emits_one_path_per_maximal_run (img : ImageSurface) :
    generateFallbackSvg img = svgWrap img.width img.height
      (concatStrs ((List.range img.height).map (fun y =>
        concatStrs ((maxRuns (rowAlphas img y)).map (fun r => pathCmd r.1 y r.2))))) ∧
    (∀ row : List ℕ, runsSpecOK row (maxRuns row) = true) ∧
    generateFallbackSvg exampleSurface3 =
      "<svg xmlns=\"http://www.w3.org/2000/svg\" viewBox=\"0 0 3 3\" width=\"3\" height=\"3\"><path d=\"M0,0h3v1h-3z \" fill=\"currentColor\"/></svg>" ∧
    "M0,0h3v1h-3z".toList <:+: (generateFallbackSvg exampleSurface3).toList ∧
    "viewBox=\"0 0 3 3\"".toList <:+: (generateFallbackSvg exampleSurface3).toList := by
  refine ⟨?_, runsSpecOK_maxRuns, ?_, ?_, ?_⟩
  · unfold generateFallbackSvg
    congr 1
    congr 1
    apply List.map_congr_left
    intro y _
    exact scan_none_eq y (rowAlphas img y) 0
  · rfl
  · decide
  · decide

/-- C8 counterexample: when the fallback's drawing context is unavailable the
call returns the empty string, which is not an (empty-bodied) SVG document. -/
theorem trace_no_context_empty_string_counterexample :
    traceToSvg none none = "" ∧ isSvgDoc (traceToSvg none none) = false := ⟨rfl, rfl⟩

/-- C8 (amended): `traceToSvg` never propagates an error — with the primary
tracer absent or throwing it returns the deterministic fallback result; with
a readable surface the fallback result is a non-empty well-formed SVG string;
with no drawing context it returns the empty string (not an SVG document)
rather than raising. -/
theorem traceToSvg_never_throws_fallback_wellformed (ctx : Option ImageSurface)
    (e : String) (img : ImageSurface) :
    traceToSvg none ctx = generateFallbackSvgOpt ctx ∧
    traceToSvg (some (Except.error e)) ctx = generateFallbackSvgOpt ctx ∧
    isSvgDoc (traceToSvg none (some img)) = true ∧
    traceToSvg none none = "" := by
  refine ⟨rfl, rfl, ?_, rfl⟩
  exact isSvgDoc_svgWrap _ _ _

/-- C9: `edgeSoftness` does not influence segmentation — two settings that
differ only in `edgeSoftness` produce byte-identical output buffers, and no
partial-alpha values appear regardless of `edgeSoftness`. -/
theorem edgeSoftness_is_inert (s : ProcessingSettings) (e : ℚ) (img : ImageSurface) :
    processSealImage { s with edgeSoftness := e } img = processSealImage s img ∧
    ((processSealImage { s with edgeSoftness := e } img).data.all fun p =>
      (p.a == 0) || (p.a == 255)) = true :=
  ⟨rfl, processed_alpha_binary _ img⟩

/-- C10: with the declared-but-unhandled mode `mixed`, `processSealImage`
behaves exactly as with mode `black` on otherwise-identical settings — the
classifier's else-branch covers every mode other than `red`, so the outputs
are byte-identical. -/
theorem mixed_mode_behaves_as_black (s : ProcessingSettings) (img : ImageSurface) :
    processSealImage { s with detectionMode := DetectionMode.mixed } img =
      processSealImage { s with detectionMode := DetectionMode.black } img := rfl
